import Mathlib

/-!
Verification of the outline-extraction pipeline in `src/app.py`.

The program's core functions — `add_numbering_to_outline`,
`convert_markdown_to_html` and `extract_headings_regex` — are shallowly
embedded below.  Text is modelled as `List Char`; Python `re` operations are
translated to explicit character-list scans with the same maximal-munch and
backtracking semantics as the regexes they replace (the equivalence argument
is given at each definition).  ASCII is assumed for case folding and the
whitespace class, which covers every input the claims mention.
-/

/-- Python's `\s` character class, restricted to ASCII. -/
def pySpace (c : Char) : Bool :=
  c = ' ' || c = '\t' || c = '\n' || c = '\r' || c = '\x0b' || c = '\x0c'

/-- Python's `\d` character class (ASCII decimal digits). -/
def digitC (c : Char) : Bool :=
  '0' ≤ c && c ≤ '9'

/-- Value of a digit string, as Python `int` on a `\d+` match. -/
def natOfDigits (ds : List Char) : Nat :=
  ds.foldl (fun a c => a * 10 + (c.toNat - 48)) 0

/-- Fuel-based worker for `natToDigits` (structural recursion so that the
kernel can evaluate it; the fuel `n + 1` always suffices). -/
def natToDigitsF : Nat → Nat → List Char
  | 0, _ => []
  | fuel + 1, n =>
    if n < 10 then [Char.ofNat (48 + n)]
    else natToDigitsF fuel (n / 10) ++ [Char.ofNat (48 + n % 10)]

/-- Decimal rendering of a natural number, as Python `str` on a
nonnegative `int` (no sign, no leading zeros). -/
def natToDigits (n : Nat) : List Char :=
  natToDigitsF (n + 1) n

/-- Python `str.strip()`: whitespace removed from both ends. -/
def pyStrip (l : List Char) : List Char :=
  ((l.dropWhile pySpace).reverse.dropWhile pySpace).reverse

/-- Python `str.lower()` (ASCII case folding, which is all the claims use). -/
def pyLower (l : List Char) : List Char :=
  l.map Char.toLower

/-- Python's `needle in hay` on strings: contiguous-substring test. -/
def containsSub (needle : List Char) : List Char → Bool
  | [] => needle.isPrefixOf []
  | c :: t => needle.isPrefixOf (c :: t) || containsSub needle t

/-- `line.count('#')` from `add_numbering_to_outline`: occurrences of `'#'`
anywhere in the line (the code does not restrict to a leading run). -/
def countHash (l : List Char) : Nat :=
  l.countP (· = '#')

/-- `line.lstrip('#')`: leading `'#'` characters removed. -/
def lstripHash (l : List Char) : List Char :=
  l.dropWhile (· = '#')

/-- Python `text.split("\n")`: every newline is a separator, so the result
has one more piece than there are newlines, and `"".split("\n") = [""]`. -/
def splitNl : List Char → List (List Char)
  | [] => [[]]
  | c :: rest =>
    if c = '\n' then [] :: splitNl rest
    else
      match splitNl rest with
      | [] => [[c]]
      | h :: t => (c :: h) :: t

/-- Python `sep.join(pieces)`. -/
def pyJoin (sep : List Char) : List (List Char) → List Char
  | [] => []
  | [x] => x
  | x :: y :: t => x ++ sep ++ pyJoin sep (y :: t)

/-- `re.match(r'^(\d+)\s+(.*)', text)` from the level-1 numeric branch.
The regex succeeds iff the text starts with one or more digits immediately
followed by at least one whitespace character; `\d+` and `\s+` are both
maximal (no backtracking can succeed: a digit is never whitespace), and
`(.*)` is the remainder.  Returns `(int(group 1), group 2)`. -/
def matchIntSpace (text : List Char) : Option (Nat × List Char) :=
  let ds := text.takeWhile digitC
  let rest := text.dropWhile digitC
  if ds = [] then none
  else
    match rest with
    | [] => none
    | c :: _ => if pySpace c then some (natOfDigits ds, rest.dropWhile pySpace) else none

/-- Fuel-based worker for `spanDotDigits` (structural recursion so that the
kernel can evaluate it; fuel `l.length` always suffices since every step
consumes at least the dot). -/
def spanDotDigitsF : Nat → List Char → List Char × List Char
  | 0, l => ([], l)
  | fuel + 1, l =>
    match l with
    | '.' :: rest =>
      let d := rest.takeWhile digitC
      if d = [] then ([], l)
      else
        let r := spanDotDigitsF fuel (rest.dropWhile digitC)
        (('.' :: d) ++ r.1, r.2)
    | _ => ([], l)

/-- The `(\.\d+)*` part of the numbering regexes: consume maximally many
groups of a dot followed by one or more digits, returning (consumed, rest).
A group is only consumed when the dot is in fact followed by a digit, which
is exactly the regex's greedy behavior. -/
def spanDotDigits (l : List Char) : List Char × List Char :=
  spanDotDigitsF l.length l

/-- `re.sub(r'^\d+(\.\d+)*\s+', '', text)` from the numeric subheading
branch.  The pattern matches iff the maximal leading `digits(.digits)*`
prefix is nonempty and immediately followed by whitespace (backtracking the
starred group or `\d+` can only land on a dot or a digit, never whitespace,
so no shorter match can succeed); the substitution then also removes the
maximal whitespace run that follows. -/
def stripLeadingNumerals (text : List Char) : List Char :=
  let ds := text.takeWhile digitC
  if ds = [] then text
  else
    match (spanDotDigits (text.dropWhile digitC)).2 with
    | [] => text
    | c :: rest2 => if pySpace c then (c :: rest2).dropWhile pySpace else text

/-- The `conclusion_keywords` list of `add_numbering_to_outline`. -/
def conclusionKeywords : List (List Char) :=
  ["Conclusion".toList, "Concluding".toList, "Final Remarks".toList, "Summary".toList]

/-- `any(kw.lower() in clean_text.lower() for kw in conclusion_keywords)`. -/
def hasConclusionKeyword (text : List Char) : Bool :=
  conclusionKeywords.any (fun kw => containsSub (pyLower kw) (pyLower text))

/-- Python `chr`.  `Char.ofNat` agrees with `chr` on every valid scalar
value; Python additionally accepts surrogates (where Lean's `Char` cannot
represent the result) and raises `ValueError` from `0x110000` on.  The
definition `stepSafe` below tracks the `chr` domain explicitly; no claim
depends on the rendering of an invalid code point. -/
def chrPy (n : Nat) : Char :=
  Char.ofNat n

/-- The two values of `current_main_mode` in `add_numbering_to_outline`. -/
inductive MainMode
  | numeric
  | appendix
deriving DecidableEq

/-- The mutable state of one `add_numbering_to_outline` run.  The Python
counter dictionaries are read through `.get(lvl, 0)`, so a total map with
default `0` is an exact model.  `currentAppendixLetter` holds the code
point passed to `chr` (Python keeps the one-character string). -/
structure RState where
  numericCounters : Nat → Nat
  appendixCounters : Nat → Nat
  appendixLetterCounter : Nat
  currentAppendixLetter : Option Nat
  mainBodyComplete : Bool
  currentMainMode : MainMode

/-- The state at the top of `add_numbering_to_outline`
(`appendix_letter_counter = ord('A') = 65`). -/
def initState : RState where
  numericCounters := fun _ => 0
  appendixCounters := fun _ => 0
  appendixLetterCounter := 65
  currentAppendixLetter := none
  mainBodyComplete := false
  currentMainMode := .numeric

/-- `counters[d] = v` on a default-0 counter map. -/
def setCounter (f : Nat → Nat) (d v : Nat) : Nat → Nat :=
  fun l => if l = d then v else f l

/-- `for lvl in counters: if lvl > d: counters[lvl] = 0` — with the
default-0 reading, this zeroes every level deeper than `d`. -/
def resetDeeper (f : Nat → Nat) (d : Nat) : Nat → Nat :=
  fun l => if d < l then 0 else f l

/-- One iteration of the `for line in outline.split("\n")` loop of
`add_numbering_to_outline`: the emitted line and the updated state. -/
def processLine (st : RState) (line : List Char) : List Char × RState :=
  let headingLevel := countHash line
  if headingLevel = 0 then (line, st)
  else
    let text := pyStrip (lstripHash line)
    if headingLevel = 1 then
      if st.mainBodyComplete then
        -- level-1 heading after the conclusion: appendix mode
        let letter := st.appendixLetterCounter
        (List.replicate headingLevel '#' ++ ' ' :: chrPy letter :: ' ' :: text,
         { st with
             currentAppendixLetter := some letter
             appendixLetterCounter := letter + 1
             appendixCounters := fun _ => 0
             currentMainMode := .appendix })
      else
        match matchIntSpace text with
        | some (num, cleanText) =>
          -- the heading already starts with a number: adopt it
          (List.replicate headingLevel '#' ++ ' ' :: (natToDigits num ++ ' ' :: cleanText),
           { st with
               numericCounters := resetDeeper (setCounter st.numericCounters 1 num) 1
               currentMainMode := .numeric
               mainBodyComplete := hasConclusionKeyword cleanText })
        | none =>
          let n := st.numericCounters 1 + 1
          (List.replicate headingLevel '#' ++ ' ' :: (natToDigits n ++ ' ' :: text),
           { st with
               numericCounters := resetDeeper (setCounter st.numericCounters 1 n) 1
               currentMainMode := .numeric
               mainBodyComplete := hasConclusionKeyword text })
    else
      match st.currentMainMode with
      | .numeric =>
        let stripped := stripLeadingNumerals text
        let nc := resetDeeper
          (setCounter st.numericCounters headingLevel (st.numericCounters headingLevel + 1))
          headingLevel
        let numbering := pyJoin ['.'] ((List.range' 1 headingLevel).map (fun l => natToDigits (nc l)))
        (List.replicate headingLevel '#' ++ ' ' :: (numbering ++ ' ' :: stripped),
         { st with numericCounters := nc })
      | .appendix =>
        let ac := resetDeeper
          (setCounter st.appendixCounters headingLevel (st.appendixCounters headingLevel + 1))
          headingLevel
        -- `current_appendix_letter` is never `None` here in any reachable
        -- state (Python would raise in `join` otherwise); `stepSafe` records
        -- the condition and the safety theorem discharges it.
        let letterStr := match st.currentAppendixLetter with
          | some n => [chrPy n]
          | none => []
        let numbering :=
          pyJoin ['.'] (letterStr :: (List.range' 2 (headingLevel - 1)).map (fun l => natToDigits (ac l)))
        (List.replicate headingLevel '#' ++ ' ' :: (numbering ++ ' ' :: text),
         { st with appendixCounters := ac })

/-- The whole loop of `add_numbering_to_outline`: emitted lines plus the
final state. -/
def runLines (st : RState) : List (List Char) → List (List Char) × RState
  | [] => ([], st)
  | l :: ls =>
    let p := processLine st l
    let r := runLines p.2 ls
    (p.1 :: r.1, r.2)

/-- `add_numbering_to_outline(outline)` from `src/app.py`. -/
def add_numbering_to_outline (outline : String) : String :=
  (pyJoin ['\n'] (runLines initState (splitNl outline.toList)).1).asString

/-- `convert_markdown_to_html` on one line.
`re.match(r'^(#+)\s*(.*)', line)` succeeds iff the line starts with `'#'`;
`(#+)` is the maximal leading run (nothing after it can force backtracking,
since `\s*` and `(.*)` always succeed), `\s*` eats the maximal whitespace
run after it and `(.*)` is the remainder.  Note there is no clamping of the
level. -/
def convLine (line : List Char) : List Char :=
  let hs := line.takeWhile (· = '#')
  if hs = [] then "<p>".toList ++ line ++ "</p>".toList
  else
    let body := (line.dropWhile (· = '#')).dropWhile pySpace
    "<p class=\"h".toList ++ natToDigits hs.length ++ "\">".toList ++ body ++ "</p>".toList

/-- `convert_markdown_to_html(markdown_text)` from `src/app.py`. -/
def convert_markdown_to_html (markdownText : String) : String :=
  (pyJoin ['\n'] ((splitNl (pyStrip markdownText.toList)).map convLine)).asString

/-- The Introduction pattern
`^\s*(?:\d+(?:\.\d+)*\s+)?(?:Introduction|INTRODUCTION)(.*)$` restricted to
one line.  `patterns[0].search(text)` is modelled per line (see
`findIntro`); this is faithful even though `\s*` and `\s+` can cross
newlines in the full text, because `(.*)` cannot: `group(1)` is determined
by the line holding the literal, and that line own prefix before the
literal is whitespace (or whitespace, numeral, whitespace when the numeral
shares the line), so the literal line also matches this per-line pattern —
and conversely a matching line induces a full-text match starting at its
own `^`.  The lines a cross-line match passes through (all-whitespace
lines, or a line holding only the numeral and whitespace) never match
per-line, so the first matching line is exactly the line holding the
literal of the leftmost `search` match, with the same `group(1)`.  The
optional numeral group is greedy, and its failure points (digit, dot or
whitespace positions) can never start the literal, so the maximal-munch
parse is complete.  Only the exact spellings `Introduction` and
`INTRODUCTION` are accepted.  Returns `group(1)`. -/
def matchIntroLine (line : List Char) : Option (List Char) :=
  let l1 := line.dropWhile pySpace
  let ds := l1.takeWhile digitC
  let l2 :=
    if ds = [] then l1
    else
      match (spanDotDigits (l1.dropWhile digitC)).2 with
      | [] => l1
      | c :: rest => if pySpace c then (c :: rest).dropWhile pySpace else l1
  if "Introduction".toList.isPrefixOf l2 then some (l2.drop 12)
  else if "INTRODUCTION".toList.isPrefixOf l2 then some (l2.drop 12)
  else none

/-- The alternation `(Chapter|Section|Appendix)` of the labeled-section
pattern.  The three words start with distinct letters, so at most one can
match at a given position. -/
def sectionKeywords : List (List Char) :=
  ["Chapter".toList, "Section".toList, "Appendix".toList]

/-- `[A-Z0-9]`, the required first character of the labeled pattern second
group. -/
def upperOrDigit (c : Char) : Bool :=
  ('A' ≤ c && c ≤ 'Z') || ('0' ≤ c && c ≤ '9')

/-- The character class `[-\w\s]` of the labeled pattern (`\w` restricted
to ASCII).  Note that it contains every whitespace character, the newline
included. -/
def wordClass (c : Char) : Bool :=
  c = '-' || c = '_' || pySpace c ||
    ('a' ≤ c && c ≤ 'z') || ('A' ≤ c && c ≤ 'Z') || ('0' ≤ c && c ≤ '9')

/-- One attempt of the numbered-heading pattern
`^\s*(\d+(?:\.\d+)*)\s+(.+)$` at a line-start position, given the whole
remaining suffix of the page text.  `re.MULTILINE` only moves `^`/`$` to
line boundaries: `\s*` and `\s+` still match the newline, so a match can
span lines — `"3\nMethods"` matches with `group(2) = "Methods"` — while
`(.+)` cannot cross a newline, so `group(2)` is the remainder of a single
line and the match ends at that line end.  Backtracking of `\s*`, `\d+`
and the dot groups can only land on whitespace, digit or dot positions
where the next atom fails again, so the maximal-munch parse is complete;
the one real backtrack is `\s+` giving characters back to `(.+)` when the
whitespace run reaches the end of the text, in which case `(.+)` matches
the rightmost non-newline whitespace character (up to the line end `$`).
Returns `((group(1), group(2)), suffix after the match end)`; the suffix is
empty or starts with a newline. -/
def tryNumbered (l : List Char) : Option ((List Char × List Char) × List Char) :=
  let l1 := l.dropWhile pySpace
  let ds := l1.takeWhile digitC
  if ds = [] then none
  else
    let sp := spanDotDigits (l1.dropWhile digitC)
    let numbering := ds ++ sp.1
    let tail := sp.2
    let w2 := tail.takeWhile pySpace
    let r := tail.dropWhile pySpace
    if w2 = [] then none
    else
      match r with
      | _ :: _ => some ((numbering, r.takeWhile (· ≠ '\n')), r.dropWhile (· ≠ '\n'))
      | [] =>
        match w2.reverse.dropWhile (· = '\n') with
        | [] => none
        | c :: cr =>
          if cr = [] then none
          else some ((numbering, [c]),
            List.replicate (w2.reverse.takeWhile (· = '\n')).length '\n')

/-- One attempt of the labeled-section pattern
`^\s*(Chapter|Section|Appendix)\s+([A-Z0-9][-\w\s]*:?.*)$` at a line-start
position.  `\s+` can cross newlines (`"Appendix\nB Results"` matches with
`group(2) = "B Results"`), and since `[-\w\s]*` also matches the newline,
`group(2)` itself can span several lines: after the `[A-Z0-9]` character it
runs greedily through word, space and hyphen characters, then `:?.*$`
completes on the line where the run stopped.  The run can only stop at a
character outside the class — never at a newline — so `:?.*$` always
succeeds, and whether the optional colon is eaten by `:?` or by `.*` the
captured span is the same: up to the end of that line, where the match
ends.  Backtracking `\s+` or the class run lands on positions where
`[A-Z0-9]` or nothing fails better, so the maximal-munch parse is
complete.  Returns `((group(1), group(2)), suffix after the match end)`;
the suffix is empty or starts with a newline. -/
def tryLabeled (l : List Char) : Option ((List Char × List Char) × List Char) :=
  let l1 := l.dropWhile pySpace
  match sectionKeywords.find? (fun kw => kw.isPrefixOf l1) with
  | none => none
  | some kw =>
    let tail := l1.drop kw.length
    let w2 := tail.takeWhile pySpace
    let r := tail.dropWhile pySpace
    if w2 = [] then none
    else
      match r with
      | [] => none
      | d :: r2 =>
        if upperOrDigit d then
          let cls := r2.takeWhile wordClass
          let after := r2.dropWhile wordClass
          some ((kw, d :: (cls ++ after.takeWhile (· ≠ '\n'))),
            after.dropWhile (· ≠ '\n'))
        else none

/-- `re.finditer` for a `^...$`-anchored MULTILINE pattern, driven by one
of the attempt functions above.  Matches can only start where `^` holds
(the text start or just after a newline); a failed attempt advances to the
next line start, and a successful one emits its groups and resumes after
the match — which always ends at a line end, so the remaining suffix is
empty or starts with the newline that is skipped to reach the next `^`
position.  Matches are thus produced leftmost-first and non-overlapping,
exactly as `finditer` scans.  Fuel-based structural recursion: every step
stops or recurses on a strictly shorter suffix (a failed attempt drops at
least the current line's newline, a match consumes at least the numeral or
keyword), so fuel `length + 1` always suffices. -/
def finditerF (tryAt : List Char → Option ((List Char × List Char) × List Char)) :
    Nat → List Char → List (List Char × List Char)
  | 0, _ => []
  | fuel + 1, l =>
    match tryAt l with
    | some (m, rest) =>
      match rest with
      | '\n' :: r2 => m :: finditerF tryAt fuel r2
      | _ => [m]
    | none =>
      match l.dropWhile (· ≠ '\n') with
      | '\n' :: r2 => finditerF tryAt fuel r2
      | _ => []

/-- All matches of one pattern over one page text, in scan order. -/
def finditerPage (tryAt : List Char → Option ((List Char × List Char) × List Char))
    (pageText : List Char) : List (List Char × List Char) :=
  finditerF tryAt (pageText.length + 1) pageText

/-- The affiliation noise filter of `extract_headings_regex` (the keywords
are already lowercase, so `keyword.lower()` is the keyword itself). -/
def affiliationKeywords : List (List Char) :=
  ["university".toList, "school of".toList, "department of".toList, "institute".toList]

/-- `any(keyword.lower() in title.lower() for keyword in [...])`. -/
def hasAffiliationKeyword (title : List Char) : Bool :=
  affiliationKeywords.any (fun kw => containsSub kw (pyLower title))

/-- The body shared by the two `finditer` loops of `extract_headings_regex`
(both patterns have exactly two groups, so the
`len(match.groups()) == 2` test is always true): strip the title, discard
affiliation noise, and compute `level = numbering.count('.') + 1 if
numbering else 1`. -/
def candidateOfMatch (pg : Nat) (m : List Char × List Char) : Option (Nat × List Char × Nat) :=
  let title := pyStrip m.2
  if hasAffiliationKeyword title then none
  else some (if m.1 = [] then 1 else m.1.countP (· = '.') + 1, title, pg)

/-- All candidates one page contributes once the introduction was found:
the `finditer` matches of the numbered pattern over the whole page text
(in scan order), then the `finditer` matches of the labeled pattern, each
passed through `candidateOfMatch`. -/
def pageCandidates (pageText : List Char) (pg : Nat) : List (Nat × List Char × Nat) :=
  (finditerPage tryNumbered pageText).filterMap (candidateOfMatch pg)
    ++ (finditerPage tryLabeled pageText).filterMap (candidateOfMatch pg)

/-- `patterns[0].search(text)`: the first line of the page matching the
Introduction pattern (see `matchIntroLine` for why this per-line reading
agrees with the full-text `search`). -/
def findIntro (pageText : List Char) : Option (List Char) :=
  (splitNl pageText).findSome? matchIntroLine

/-- The page loop of `extract_headings_regex`.  While the introduction has
not been found, only pattern 0 is tried, and the page that matches it
contributes the single candidate `(1, "Introduction" + group(1), page)` and
nothing else (the `continue`); afterwards every page contributes its
numbered and labeled matches. -/
def extractLoop : List (List Char) → Nat → Bool → List (Nat × List Char × Nat)
  | [], _, _ => []
  | p :: ps, pg, foundIntro =>
    if foundIntro then pageCandidates p (pg + 1) ++ extractLoop ps (pg + 1) true
    else
      match findIntro p with
      | some g => (1, "Introduction".toList ++ g, pg + 1) :: extractLoop ps (pg + 1) true
      | none => extractLoop ps (pg + 1) false

/-- `extract_headings_regex(pdf_bytes, max_pages)` from `src/app.py`, with
the PDF collaborator abstracted to the list of page texts it yields
(`page.get_text()` for each page, in order); `range(min(max_pages,
doc.page_count))` scans exactly the first `max_pages` pages. -/
def extract_headings_regex (pages : List String) (maxPages : Nat) : List (Nat × List Char × Nat) :=
  extractLoop ((pages.take maxPages).map String.toList) 0 false

/-- Modelled from the spec: the spec describes rule 1 of the extractor as
"a line that is, or contains, the literal word `Introduction`
(case-insensitive)"; this predicate follows that wording, for comparison
with the code's `matchIntroLine` (which accepts only the spellings
`Introduction` and `INTRODUCTION`). -/
def introMatchesCI (line : List Char) : Bool :=
  containsSub "introduction".toList (pyLower line)

/-- Whether one `processLine` step stays inside the domain of the partial
Python operations of `add_numbering_to_outline`: `chr` (raises `ValueError`
for arguments `≥ 0x110000 = 1114112`) in the appendix level-1 branch, and
the `".".join` over `current_appendix_letter` (raises `TypeError` on
`None`) in the appendix subheading branch.  Everything else in the loop
body is total. -/
def stepSafe (st : RState) (line : List Char) : Bool :=
  let hl := countHash line
  if hl = 0 then true
  else if hl = 1 then
    if st.mainBodyComplete then st.appendixLetterCounter < 1114112 else true
  else
    match st.currentMainMode with
    | .numeric => true
    | .appendix => st.currentAppendixLetter.isSome

/-- Every step of the renumbering loop is exception-free. -/
def linesSafe : RState → List (List Char) → Bool
  | _, [] => true
  | st, l :: ls => stepSafe st l && linesSafe (processLine st l).2 ls

/-- `add_numbering_to_outline` raises no exception on this input. -/
def exceptionFree (s : String) : Bool :=
  linesSafe initState (splitNl s.toList)

example : add_numbering_to_outline "# Introduction\n## Background\n# Methods\n# Conclusion\n# Acknowledgments\n## Funding" =
    "# 1 Introduction\n## 1.1 Background\n# 2 Methods\n# 3 Conclusion\n# A Acknowledgments\n## A.1 Funding" := by decide

/-! ### Step lemmas for the renumbering loop -/

theorem processLine_hash0 (st : RState) (l : List Char) (h : countHash l = 0) :
    processLine st l = (l, st) := by
  simp [processLine, h]

theorem processLine_main_unnumbered (st : RState) (l : List Char)
    (h1 : countHash l = 1) (hm : st.mainBodyComplete = false)
    (hmi : matchIntSpace (pyStrip (lstripHash l)) = none) :
    (processLine st l).1 =
      '#' :: ' ' :: (natToDigits (st.numericCounters 1 + 1) ++ ' ' :: pyStrip (lstripHash l)) ∧
    (processLine st l).2.numericCounters 1 = st.numericCounters 1 + 1 ∧
    (processLine st l).2.mainBodyComplete = hasConclusionKeyword (pyStrip (lstripHash l)) ∧
    (processLine st l).2.appendixLetterCounter = st.appendixLetterCounter ∧
    (processLine st l).2.currentAppendixLetter = st.currentAppendixLetter ∧
    (processLine st l).2.currentMainMode = .numeric := by
  simp [processLine, h1, hm, hmi, setCounter, resetDeeper]

theorem processLine_main_numbered (st : RState) (l : List Char) (num : Nat) (clean : List Char)
    (h1 : countHash l = 1) (hm : st.mainBodyComplete = false)
    (hmi : matchIntSpace (pyStrip (lstripHash l)) = some (num, clean)) :
    (processLine st l).1 = '#' :: ' ' :: (natToDigits num ++ ' ' :: clean) ∧
    (processLine st l).2.numericCounters 1 = num ∧
    (processLine st l).2.mainBodyComplete = hasConclusionKeyword clean ∧
    (processLine st l).2.appendixLetterCounter = st.appendixLetterCounter ∧
    (processLine st l).2.currentAppendixLetter = st.currentAppendixLetter ∧
    (processLine st l).2.currentMainMode = .numeric := by
  simp [processLine, h1, hm, hmi, setCounter, resetDeeper]

theorem processLine_appendix1 (st : RState) (l : List Char)
    (h1 : countHash l = 1) (hm : st.mainBodyComplete = true) :
    (processLine st l).1 =
      '#' :: ' ' :: chrPy st.appendixLetterCounter :: ' ' :: pyStrip (lstripHash l) ∧
    (processLine st l).2.appendixLetterCounter = st.appendixLetterCounter + 1 ∧
    (processLine st l).2.mainBodyComplete = true ∧
    (processLine st l).2.currentAppendixLetter = some st.appendixLetterCounter ∧
    (processLine st l).2.currentMainMode = .appendix := by
  simp [processLine, h1, hm]

theorem processLine_sub (st : RState) (l : List Char)
    (h0 : countHash l ≠ 0) (h1 : countHash l ≠ 1) :
    (processLine st l).2.numericCounters 1 = st.numericCounters 1 ∧
    (processLine st l).2.mainBodyComplete = st.mainBodyComplete ∧
    (processLine st l).2.appendixLetterCounter = st.appendixLetterCounter ∧
    (processLine st l).2.currentAppendixLetter = st.currentAppendixLetter ∧
    (processLine st l).2.currentMainMode = st.currentMainMode := by
  have h2 : 2 ≤ countHash l := by omega
  cases hmode : st.currentMainMode <;>
    simp [processLine, h0, h1, hmode, setCounter, resetDeeper] <;>
    (intro h; omega)

theorem processLine_mbc_mono (st : RState) (l : List Char)
    (hm : st.mainBodyComplete = true) :
    (processLine st l).2.mainBodyComplete = true := by
  by_cases h0 : countHash l = 0
  · simp [processLine_hash0 st l h0, hm]
  · by_cases h1 : countHash l = 1
    · exact (processLine_appendix1 st l h1 hm).2.2.1
    · rw [(processLine_sub st l h0 h1).2.1]; exact hm

theorem processLine_letter_stable (st : RState) (l : List Char)
    (h : ¬(countHash l = 1 ∧ st.mainBodyComplete = true)) :
    (processLine st l).2.appendixLetterCounter = st.appendixLetterCounter := by
  by_cases h0 : countHash l = 0
  · simp [processLine_hash0 st l h0]
  · by_cases h1 : countHash l = 1
    · have hm : st.mainBodyComplete = false := by
        cases hmb : st.mainBodyComplete
        · rfl
        · exact absurd ⟨h1, hmb⟩ h
      cases hmi : matchIntSpace (pyStrip (lstripHash l)) with
      | none => exact (processLine_main_unnumbered st l h1 hm hmi).2.2.2.1
      | some p => exact (processLine_main_numbered st l p.1 p.2 h1 hm hmi).2.2.2.1
    · exact (processLine_sub st l h0 h1).2.2.1

theorem runLines_nil (st : RState) : runLines st [] = ([], st) := rfl

theorem runLines_cons (st : RState) (l : List Char) (ls : List (List Char)) :
    runLines st (l :: ls) =
      ((processLine st l).1 :: (runLines (processLine st l).2 ls).1,
       (runLines (processLine st l).2 ls).2) := rfl

theorem runLines_length (st : RState) (ls : List (List Char)) :
    ((runLines st ls).1).length = ls.length := by
  induction ls generalizing st with
  | nil => rfl
  | cons l ls ih => simp [runLines_cons, ih]

/-- A line the renumberer treats as a level-1 heading. -/
def isHeading1 (l : List Char) : Bool :=
  countHash l = 1

theorem mainBody_labels_aux (ls : List (List Char)) :
    ∀ (st : RState), st.mainBodyComplete = false →
    (∀ l ∈ ls, countHash l = 1 →
      matchIntSpace (pyStrip (lstripHash l)) = none ∧
      hasConclusionKeyword (pyStrip (lstripHash l)) = false) →
    ∀ j l, ls[j]? = some l → countHash l = 1 →
    ((runLines st ls).1)[j]? =
      some ('#' :: ' ' ::
        (natToDigits (st.numericCounters 1 + (ls.take (j + 1)).countP isHeading1) ++
          ' ' :: pyStrip (lstripHash l))) := by
  induction ls with
  | nil => intro st _ _ j l hj; simp at hj
  | cons a t ih =>
    intro st hm hyp j l hj hcl
    cases j with
    | zero =>
      have hal : a = l := by simpa using hj
      subst hal
      have hmi := (hyp a (by simp) hcl).1
      have hstep := (processLine_main_unnumbered st a hcl hm hmi).1
      simp only [runLines_cons, List.getElem?_cons_zero, hstep, List.take_succ_cons,
        List.take_zero, List.countP_cons, List.countP_nil, isHeading1, hcl]
      simp
    | succ j =>
      have htj : t[j]? = some l := by simpa using hj
      have hyp' : ∀ x ∈ t, countHash x = 1 →
          matchIntSpace (pyStrip (lstripHash x)) = none ∧
          hasConclusionKeyword (pyStrip (lstripHash x)) = false :=
        fun x hx => hyp x (List.mem_cons_of_mem a hx)
      have hm' : (processLine st a).2.mainBodyComplete = false := by
        by_cases h0 : countHash a = 0
        · simpa [processLine_hash0 st a h0] using hm
        · by_cases h1 : countHash a = 1
          · cases hmi : matchIntSpace (pyStrip (lstripHash a)) with
            | none =>
              rw [(processLine_main_unnumbered st a h1 hm hmi).2.2.1]
              exact (hyp a (by simp) h1).2
            | some p =>
              exact absurd hmi (by simp [(hyp a (by simp) h1).1])
          · rw [(processLine_sub st a h0 h1).2.1]; exact hm
      have hc1 : (processLine st a).2.numericCounters 1 =
          st.numericCounters 1 + ((if isHeading1 a then 1 else 0) : Nat) := by
        by_cases h0 : countHash a = 0
        · simp [processLine_hash0 st a h0, isHeading1, h0]
        · by_cases h1 : countHash a = 1
          · have hmi := (hyp a (by simp) h1).1
            rw [(processLine_main_unnumbered st a h1 hm hmi).2.1]
            simp [isHeading1, h1]
          · rw [(processLine_sub st a h0 h1).1]
            simp [isHeading1, h1]
      have harg : st.numericCounters 1 + ((a :: t).take (j + 1 + 1)).countP isHeading1 =
          (processLine st a).2.numericCounters 1 + (t.take (j + 1)).countP isHeading1 := by
        rw [List.take_succ_cons, List.countP_cons, hc1]
        split <;> omega
      rw [runLines_cons]
      simp only [List.getElem?_cons_succ]
      rw [harg]
      exact ih (processLine st a).2 hm' hyp' j l htj hcl

example : extract_headings_regex ["Title page\nIntroduction\nrest", "3.1 Methods x\nDepartment of Computer Science\nAppendix B Results"] 5 =
    [(1, "Introduction".toList, 1), (2, "Methods x".toList, 2), (1, "B Results".toList, 2)] := by decide

example : extract_headings_regex ["Introduction", "3\nMethods"] 5 =
    [(1, "Introduction".toList, 1), (1, "Methods".toList, 2)] := by decide

example : extract_headings_regex ["Introduction", "3\n4 Foo"] 5 =
    [(1, "Introduction".toList, 1), (1, "4 Foo".toList, 2)] := by decide

example : extract_headings_regex ["Introduction", "Appendix\nB Results"] 5 =
    [(1, "Introduction".toList, 1), (1, "B Results".toList, 2)] := by decide

example : convert_markdown_to_html "####### Deep\nplain" = "<p class=\"h7\">Deep</p>\n<p>plain</p>" := by decide

example : exceptionFree "# Conclusion\n# A\n## B\nplain\n" = true := by decide

theorem appendix_letters_aux (ls : List (List Char)) :
    ∀ (st : RState), st.mainBodyComplete = true →
    (runLines st ls).2.mainBodyComplete = true ∧
    ∀ j l, ls[j]? = some l → countHash l = 1 →
    ((runLines st ls).1)[j]? =
      some ('#' :: ' ' ::
        chrPy (st.appendixLetterCounter + (ls.take j).countP isHeading1) ::
          ' ' :: pyStrip (lstripHash l)) := by
  induction ls with
  | nil =>
    intro st hm
    exact ⟨hm, by intro j l hj; simp at hj⟩
  | cons a t ih =>
    intro st hm
    have hm' : (processLine st a).2.mainBodyComplete = true := processLine_mbc_mono st a hm
    refine ⟨by rw [runLines_cons]; exact (ih (processLine st a).2 hm').1, ?_⟩
    intro j l hj hcl
    cases j with
    | zero =>
      have hal : a = l := by simpa using hj
      subst hal
      have hstep := (processLine_appendix1 st a hcl hm).1
      simp [runLines_cons, hstep]
    | succ j =>
      have htj : t[j]? = some l := by simpa using hj
      have hctr : (processLine st a).2.appendixLetterCounter =
          st.appendixLetterCounter + ((if isHeading1 a then 1 else 0) : Nat) := by
        by_cases h1 : countHash a = 1
        · rw [(processLine_appendix1 st a h1 hm).2.1]
          simp [isHeading1, h1]
        · rw [processLine_letter_stable st a (fun hc => h1 hc.1)]
          simp [isHeading1, h1]
      have harg : st.appendixLetterCounter + ((a :: t).take (j + 1)).countP isHeading1 =
          (processLine st a).2.appendixLetterCounter + (t.take j).countP isHeading1 := by
        rw [List.take_succ_cons, List.countP_cons, hctr]
        split <;> omega
      rw [runLines_cons]
      simp only [List.getElem?_cons_succ]
      rw [harg]
      exact (ih (processLine st a).2 hm').2 j l htj hcl

/-! ### Newlines, splitting and joining -/

theorem splitNl_ne_nil (l : List Char) : splitNl l ≠ [] := by
  cases l with
  | nil => simp [splitNl]
  | cons c rest =>
    simp only [splitNl]
    split
    · simp
    · split <;> simp

theorem splitNl_no_nl (l : List Char) : ∀ p ∈ splitNl l, '\n' ∉ p := by
  induction l with
  | nil => simp [splitNl]
  | cons c rest ih =>
    intro p hp
    simp only [splitNl] at hp
    by_cases hc : c = '\n'
    · rw [if_pos hc] at hp
      cases hp with
      | head => simp
      | tail _ h => exact ih p h
    · rw [if_neg hc] at hp
      cases hsp : splitNl rest with
      | nil => exact absurd hsp (splitNl_ne_nil rest)
      | cons h t =>
        rw [hsp] at hp
        cases hp with
        | head =>
          intro hmem
          cases hmem with
          | head => exact hc rfl
          | tail _ hmem2 => exact ih h (by rw [hsp]; exact List.mem_cons_self h t) hmem2
        | tail _ hmem =>
          exact ih p (by rw [hsp]; exact List.mem_cons_of_mem h hmem)

theorem splitNl_of_no_nl (l : List Char) (h : '\n' ∉ l) : splitNl l = [l] := by
  induction l with
  | nil => rfl
  | cons c rest ih =>
    have hc : ¬(c = '\n') := fun hce => h (hce ▸ List.mem_cons_self c rest)
    have hrest : '\n' ∉ rest := fun hm => h (List.mem_cons_of_mem c hm)
    simp only [splitNl, if_neg hc, ih hrest]

theorem splitNl_append_nl (x r : List Char) (h : '\n' ∉ x) :
    splitNl (x ++ '\n' :: r) = x :: splitNl r := by
  induction x with
  | nil => simp [splitNl]
  | cons c rest ih =>
    have hc : ¬(c = '\n') := fun hce => h (hce ▸ List.mem_cons_self c rest)
    have hrest : '\n' ∉ rest := fun hm => h (List.mem_cons_of_mem c hm)
    simp only [List.cons_append, splitNl, if_neg hc]
    rw [show rest.append ('\n' :: r) = rest ++ '\n' :: r from rfl, ih hrest]

theorem splitNl_pyJoin (ps : List (List Char)) (hne : ps ≠ [])
    (h : ∀ p ∈ ps, '\n' ∉ p) : splitNl (pyJoin ['\n'] ps) = ps := by
  induction ps with
  | nil => exact absurd rfl hne
  | cons x t ih =>
    cases t with
    | nil => exact splitNl_of_no_nl x (h x (List.mem_cons_self x []))
    | cons y t2 =>
      have hx : '\n' ∉ x := h x (List.mem_cons_self _ _)
      have hrec : splitNl (pyJoin ['\n'] (y :: t2)) = y :: t2 :=
        ih (by simp) (fun p hp => h p (List.mem_cons_of_mem x hp))
      calc splitNl (pyJoin ['\n'] (x :: y :: t2))
          = splitNl (x ++ '\n' :: pyJoin ['\n'] (y :: t2)) := by
            simp [pyJoin]
        _ = x :: splitNl (pyJoin ['\n'] (y :: t2)) := splitNl_append_nl _ _ hx
        _ = x :: y :: t2 := by rw [hrec]

theorem toList_asString (l : List Char) : (List.asString l).toList = l := rfl

/-! ### Characters of the emitted labels -/

theorem natToDigitsF_digit (fuel : Nat) : ∀ n c, c ∈ natToDigitsF fuel n → digitC c = true := by
  induction fuel with
  | zero => intro n c hc; simp [natToDigitsF] at hc
  | succ fuel ih =>
    intro n c hc
    simp only [natToDigitsF] at hc
    split at hc
    · rename_i hn
      have : c = Char.ofNat (48 + n) := by simpa using hc
      subst this
      have hdig : ∀ m, m < 10 → digitC (Char.ofNat (48 + m)) = true := by decide
      exact hdig n hn
    · rename_i hn
      rcases List.mem_append.1 hc with hl | hr
      · exact ih _ c hl
      · have : c = Char.ofNat (48 + n % 10) := by simpa using hr
        subst this
        have hdig : ∀ m, m < 10 → digitC (Char.ofNat (48 + m)) = true := by decide
        exact hdig _ (Nat.mod_lt n (by omega))

theorem natToDigits_digit (n : Nat) (c : Char) (hc : c ∈ natToDigits n) : digitC c = true :=
  natToDigitsF_digit (n + 1) n c hc

theorem natToDigits_no_nl (n : Nat) : '\n' ∉ natToDigits n := by
  intro h
  have := natToDigits_digit n '\n' h
  simp [digitC] at this

theorem chrPy_toNat (n : Nat) (h : n.isValidChar) : (chrPy n).toNat = n := by
  simp [chrPy, Char.ofNat, h, Char.ofNatAux, Char.toNat, UInt32.toNat, BitVec.toNat_ofNatLt]

theorem chrPy_ne_nl (n : Nat) (h : n ≠ 10) : chrPy n ≠ '\n' := by
  intro he
  by_cases hv : n.isValidChar
  · have h1 : (chrPy n).toNat = n := chrPy_toNat n hv
    rw [he] at h1
    exact h (by simpa using h1.symm)
  · have : chrPy n = '\x00' := by simp [chrPy, Char.ofNat, hv]; rfl
    rw [this] at he
    exact absurd he (by decide)

/-! ### The rewritten text is built from the input line -/

theorem mem_pyStrip (c : Char) (l : List Char) (h : c ∈ pyStrip l) : c ∈ l := by
  simp only [pyStrip, List.mem_reverse] at h
  exact List.dropWhile_subset _ (by simpa using List.dropWhile_subset _ h)

theorem mem_lstripHash (c : Char) (l : List Char) (h : c ∈ lstripHash l) : c ∈ l :=
  List.dropWhile_subset _ h

theorem mem_spanDotDigitsF_snd (fuel : Nat) :
    ∀ l c, c ∈ (spanDotDigitsF fuel l).2 → c ∈ l := by
  induction fuel with
  | zero => intro l c hc; simpa [spanDotDigitsF] using hc
  | succ fuel ih =>
    intro l c hc
    simp only [spanDotDigitsF] at hc
    split at hc
    · split at hc
      · simpa using hc
      · exact List.mem_cons_of_mem _ (List.dropWhile_subset _ (ih _ c hc))
    · simpa using hc

theorem mem_spanDotDigits_snd (l : List Char) (c : Char)
    (h : c ∈ (spanDotDigits l).2) : c ∈ l :=
  mem_spanDotDigitsF_snd l.length l c h

theorem mem_stripLeadingNumerals (c : Char) (l : List Char)
    (h : c ∈ stripLeadingNumerals l) : c ∈ l := by
  simp only [stripLeadingNumerals] at h
  split at h
  · exact h
  · split at h
    · exact h
    · rename_i heq
      split at h
      · have h2 : c ∈ (spanDotDigits (l.dropWhile digitC)).2 := by
          rw [heq]
          exact List.dropWhile_subset _ h
        exact List.dropWhile_subset _ (mem_spanDotDigits_snd _ c h2)
      · exact h

theorem mem_matchIntSpace_snd (l : List Char) (n : Nat) (cl : List Char)
    (h : matchIntSpace l = some (n, cl)) : ∀ c ∈ cl, c ∈ l := by
  intro c hc
  simp only [matchIntSpace] at h
  split at h
  · exact absurd h (by simp)
  · split at h
    · exact absurd h (by simp)
    · split at h
      · have hcl : cl = (l.dropWhile digitC).dropWhile pySpace := by
          injection h with h2
          exact (congrArg Prod.snd h2).symm
        rw [hcl] at hc
        exact List.dropWhile_subset _ (List.dropWhile_subset _ hc)
      · exact absurd h (by simp)

/-! ### No newline ever enters an emitted line -/

/-- Invariant on reachable renumbering states: the appendix letter counter
starts at `ord('A') = 65` and only grows, so neither it nor a stored letter
can be the newline code point. -/
def StOk (st : RState) : Prop :=
  65 ≤ st.appendixLetterCounter ∧ ∀ n, st.currentAppendixLetter = some n → 65 ≤ n

theorem stOk_init : StOk initState := by
  refine ⟨by simp [initState], ?_⟩
  intro n h
  simp [initState] at h

theorem processLine_sub_numeric_out (st : RState) (l : List Char)
    (h0 : countHash l ≠ 0) (h1 : countHash l ≠ 1)
    (hmode : st.currentMainMode = .numeric) :
    (processLine st l).1 =
      List.replicate (countHash l) '#' ++ ' ' ::
        (pyJoin ['.'] ((List.range' 1 (countHash l)).map (fun lv =>
            natToDigits (resetDeeper
              (setCounter st.numericCounters (countHash l) (st.numericCounters (countHash l) + 1))
              (countHash l) lv))) ++
          ' ' :: stripLeadingNumerals (pyStrip (lstripHash l))) := by
  simp [processLine, h0, h1, hmode]

theorem processLine_sub_appendix_out (st : RState) (l : List Char)
    (h0 : countHash l ≠ 0) (h1 : countHash l ≠ 1)
    (hmode : st.currentMainMode = .appendix) :
    (processLine st l).1 =
      List.replicate (countHash l) '#' ++ ' ' ::
        (pyJoin ['.'] ((match st.currentAppendixLetter with
            | some n => [chrPy n]
            | none => []) ::
          (List.range' 2 (countHash l - 1)).map (fun lv =>
            natToDigits (resetDeeper
              (setCounter st.appendixCounters (countHash l) (st.appendixCounters (countHash l) + 1))
              (countHash l) lv))) ++
          ' ' :: pyStrip (lstripHash l)) := by
  simp [processLine, h0, h1, hmode]

theorem stOk_step (st : RState) (l : List Char) (h : StOk st) : StOk (processLine st l).2 := by
  by_cases h0 : countHash l = 0
  · rw [processLine_hash0 st l h0]
    exact h
  · by_cases h1 : countHash l = 1
    · cases hm : st.mainBodyComplete with
      | true =>
        have ha := processLine_appendix1 st l h1 hm
        refine ⟨?_, ?_⟩
        · rw [ha.2.1]; have := h.1; omega
        · intro n hn
          rw [ha.2.2.2.1] at hn
          injection hn with hn2
          have := h.1
          omega
      | false =>
        cases hmi : matchIntSpace (pyStrip (lstripHash l)) with
        | none =>
          have hu := processLine_main_unnumbered st l h1 hm hmi
          exact ⟨hu.2.2.2.1 ▸ h.1, fun n hn => h.2 n (hu.2.2.2.2.1 ▸ hn)⟩
        | some p =>
          have hu := processLine_main_numbered st l p.1 p.2 h1 hm hmi
          exact ⟨hu.2.2.2.1 ▸ h.1, fun n hn => h.2 n (hu.2.2.2.2.1 ▸ hn)⟩
    · have hs := processLine_sub st l h0 h1
      exact ⟨hs.2.2.1 ▸ h.1, fun n hn => h.2 n (hs.2.2.2.1 ▸ hn)⟩

theorem pyJoin_no_nl (sep : List Char) (ps : List (List Char)) (hsep : '\n' ∉ sep)
    (h : ∀ p ∈ ps, '\n' ∉ p) : '\n' ∉ pyJoin sep ps := by
  induction ps with
  | nil => simp [pyJoin]
  | cons x t ih =>
    cases t with
    | nil => exact h x (List.mem_cons_self _ _)
    | cons y t2 =>
      intro hmem
      simp only [pyJoin, List.append_assoc, List.mem_append] at hmem
      rcases hmem with hx | hs | hr
      · exact h x (List.mem_cons_self _ _) hx
      · exact hsep hs
      · exact ih (fun p hp => h p (List.mem_cons_of_mem _ hp)) hr

theorem processLine_noNl (st : RState) (l : List Char) (hok : StOk st) (hl : '\n' ∉ l) :
    '\n' ∉ (processLine st l).1 := by
  have hText : '\n' ∉ pyStrip (lstripHash l) :=
    fun hm => hl (mem_lstripHash _ _ (mem_pyStrip _ _ hm))
  have hRep : ∀ n : Nat, '\n' ∉ List.replicate n '#' := by
    intro n hm
    have := List.eq_of_mem_replicate hm
    simp at this
  by_cases h0 : countHash l = 0
  · rw [processLine_hash0 st l h0]
    exact hl
  · by_cases h1 : countHash l = 1
    · cases hm : st.mainBodyComplete with
      | true =>
        rw [(processLine_appendix1 st l h1 hm).1]
        intro hmem
        simp only [List.mem_cons] at hmem
        rcases hmem with h | h | h | h | h
        · exact absurd h (by decide)
        · exact absurd h (by decide)
        · exact chrPy_ne_nl st.appendixLetterCounter (by have := hok.1; omega) h.symm
        · exact absurd h (by decide)
        · exact hText h
      | false =>
        cases hmi : matchIntSpace (pyStrip (lstripHash l)) with
        | some p =>
          have hcl : '\n' ∉ p.2 :=
            fun hm2 => hText (mem_matchIntSpace_snd _ p.1 p.2 (by rw [hmi]) '\n' hm2)
          rw [(processLine_main_numbered st l p.1 p.2 h1 hm hmi).1]
          intro hmem
          simp only [List.mem_cons, List.mem_append] at hmem
          rcases hmem with h | h | (h | h | h)
          · exact absurd h (by decide)
          · exact absurd h (by decide)
          · exact natToDigits_no_nl _ h
          · exact absurd h (by decide)
          · exact hcl h
        | none =>
          rw [(processLine_main_unnumbered st l h1 hm hmi).1]
          intro hmem
          simp only [List.mem_cons, List.mem_append] at hmem
          rcases hmem with h | h | (h | h | h)
          · exact absurd h (by decide)
          · exact absurd h (by decide)
          · exact natToDigits_no_nl _ h
          · exact absurd h (by decide)
          · exact hText h
    · cases hmode : st.currentMainMode with
      | numeric =>
        rw [processLine_sub_numeric_out st l h0 h1 hmode]
        intro hmem
        simp only [List.mem_cons, List.mem_append] at hmem
        rcases hmem with h | h | (h | h | h)
        · exact hRep _ h
        · exact absurd h (by decide)
        · refine pyJoin_no_nl ['.'] _ (by decide) ?_ h
          intro p hp
          rcases List.mem_map.1 hp with ⟨lv, _, hpe⟩
          rw [← hpe]
          exact natToDigits_no_nl _
        · exact absurd h (by decide)
        · exact hText (mem_stripLeadingNumerals _ _ h)
      | appendix =>
        rw [processLine_sub_appendix_out st l h0 h1 hmode]
        intro hmem
        simp only [List.mem_cons, List.mem_append] at hmem
        rcases hmem with h | h | (h | h | h)
        · exact hRep _ h
        · exact absurd h (by decide)
        · refine pyJoin_no_nl ['.'] _ (by decide) ?_ h
          intro p hp
          rcases List.mem_cons.1 hp with hph | hpt
          · subst hph
            cases hlet : st.currentAppendixLetter with
            | some n =>
              simp only [hlet]
              intro hm2
              rcases List.mem_singleton.1 hm2 with hm3
              exact chrPy_ne_nl n (by have := hok.2 n hlet; omega) hm3.symm
            | none => simp [hlet]
          · rcases List.mem_map.1 hpt with ⟨lv, _, hpe⟩
            rw [← hpe]
            exact natToDigits_no_nl _
        · exact absurd h (by decide)
        · exact hText h

theorem runLines_noNl (ls : List (List Char)) :
    ∀ st, StOk st → (∀ l ∈ ls, '\n' ∉ l) → ∀ o ∈ (runLines st ls).1, '\n' ∉ o := by
  induction ls with
  | nil => intro st _ _ o ho; simp [runLines_nil] at ho
  | cons a t ih =>
    intro st hok hls o ho
    rw [runLines_cons] at ho
    rcases List.mem_cons.1 ho with hoh | hot
    · subst hoh
      exact processLine_noNl st a hok (hls a (List.mem_cons_self _ _))
    · exact ih (processLine st a).2 (stOk_step st a hok)
        (fun l hl => hls l (List.mem_cons_of_mem _ hl)) o hot

theorem runLines_passthrough (ls : List (List Char)) :
    ∀ (st : RState) (j : Nat) (l : List Char), ls[j]? = some l → countHash l = 0 →
    ((runLines st ls).1)[j]? = some l := by
  induction ls with
  | nil => intro st j l hj; simp at hj
  | cons a t ih =>
    intro st j l hj hc
    cases j with
    | zero =>
      have hal : a = l := by simpa using hj
      subst hal
      simp [runLines_cons, processLine_hash0 st a hc]
    | succ j =>
      have htj : t[j]? = some l := by simpa using hj
      rw [runLines_cons]
      simp only [List.getElem?_cons_succ]
      exact ih (processLine st a).2 j l htj hc

theorem add_numbering_split (s : String) :
    splitNl ((add_numbering_to_outline s).toList) =
      (runLines initState (splitNl s.toList)).1 := by
  unfold add_numbering_to_outline
  rw [toList_asString]
  apply splitNl_pyJoin
  · intro hnil
    have hlen := runLines_length initState (splitNl s.toList)
    rw [hnil] at hlen
    exact splitNl_ne_nil s.toList (List.length_eq_zero.1 hlen.symm)
  · exact runLines_noNl _ initState stOk_init (splitNl_no_nl _)

/-! ### Exception freedom of the renumbering loop -/

/-- In every reachable state, appendix mode implies a stored letter:
Python sets `current_main_mode = "appendix"` only right after assigning
`current_appendix_letter`. -/
def SafeInv (st : RState) : Prop :=
  st.currentMainMode = .appendix → st.currentAppendixLetter.isSome

theorem safeInv_init : SafeInv initState := by
  intro h
  simp [initState] at h

theorem safeInv_step (st : RState) (l : List Char) (h : SafeInv st) :
    SafeInv (processLine st l).2 := by
  by_cases h0 : countHash l = 0
  · rw [processLine_hash0 st l h0]
    exact h
  · by_cases h1 : countHash l = 1
    · cases hm : st.mainBodyComplete with
      | true =>
        have ha := processLine_appendix1 st l h1 hm
        intro _
        rw [ha.2.2.2.1]
        simp
      | false =>
        cases hmi : matchIntSpace (pyStrip (lstripHash l)) with
        | none =>
          have hu := processLine_main_unnumbered st l h1 hm hmi
          intro hmode
          rw [hu.2.2.2.2.2] at hmode
          simp at hmode
        | some p =>
          have hu := processLine_main_numbered st l p.1 p.2 h1 hm hmi
          intro hmode
          rw [hu.2.2.2.2.2] at hmode
          simp at hmode
    · have hs := processLine_sub st l h0 h1
      intro hmode
      rw [hs.2.2.2.2] at hmode
      rw [hs.2.2.2.1]
      exact h hmode

theorem linesSafe_bound (ls : List (List Char)) :
    ∀ st, SafeInv st → st.appendixLetterCounter + ls.length ≤ 1114112 →
    linesSafe st ls = true := by
  induction ls with
  | nil => intro st _ _; rfl
  | cons a t ih =>
    intro st hinv hbound
    have hstep : stepSafe st a = true := by
      by_cases h0 : countHash a = 0
      · simp [stepSafe, h0]
      · by_cases h1 : countHash a = 1
        · cases hm : st.mainBodyComplete with
          | true =>
            simp only [stepSafe, h0, h1, hm, if_true, if_false]
            simp only [List.length_cons] at hbound
            simp
            omega
          | false => simp [stepSafe, h0, h1, hm]
        · cases hmode : st.currentMainMode with
          | numeric => simp [stepSafe, h0, h1, hmode]
          | appendix =>
            simp [stepSafe, h0, h1, hmode]
            exact hinv hmode
    have hctr : (processLine st a).2.appendixLetterCounter ≤ st.appendixLetterCounter + 1 := by
      by_cases hup : countHash a = 1 ∧ st.mainBodyComplete = true
      · rw [(processLine_appendix1 st a hup.1 hup.2).2.1]
      · rw [processLine_letter_stable st a hup]
        omega
    have hrec : linesSafe (processLine st a).2 t = true := by
      apply ih _ (safeInv_step st a hinv)
      simp only [List.length_cons] at hbound
      omega
    simp [linesSafe, hstep, hrec]

theorem linesSafe_append (xs : List (List Char)) :
    ∀ st ys, linesSafe st (xs ++ ys) =
      (linesSafe st xs && linesSafe (runLines st xs).2 ys) := by
  induction xs with
  | nil => intro st ys; simp [linesSafe, runLines_nil]
  | cons a t ih =>
    intro st ys
    simp only [List.cons_append, linesSafe, runLines_cons]
    rw [show t.append ys = t ++ ys from rfl, ih, Bool.and_assoc]

theorem runLines_replicate_letter (k : Nat) :
    ∀ st (l : List Char), countHash l = 1 → st.mainBodyComplete = true →
    (runLines st (List.replicate k l)).2.appendixLetterCounter = st.appendixLetterCounter + k ∧
    (runLines st (List.replicate k l)).2.mainBodyComplete = true := by
  induction k with
  | zero => intro st l _ hm; simp [runLines_nil, hm]
  | succ k ih =>
    intro st l hc hm
    have ha := processLine_appendix1 st l hc hm
    rw [List.replicate_succ, runLines_cons]
    have := ih (processLine st l).2 l hc ha.2.2.1
    refine ⟨?_, this.2⟩
    rw [this.1, ha.2.1]
    omega

/-! ### Structure of the extractor's result -/

theorem tryNumbered_fst_ne_nil (l nb traw rest : List Char)
    (h : tryNumbered l = some ((nb, traw), rest)) : nb ≠ [] := by
  simp only [tryNumbered] at h
  split at h
  · exact absurd h (by simp)
  · rename_i hds
    split at h
    · exact absurd h (by simp)
    · split at h
      · injection h with h2
        have hnb : nb = (l.dropWhile pySpace).takeWhile digitC ++
            (spanDotDigits ((l.dropWhile pySpace).dropWhile digitC)).1 :=
          (congrArg (fun q => q.1.1) h2).symm
        rw [hnb]
        intro hne
        exact hds (List.append_eq_nil.1 hne).1
      · split at h
        · exact absurd h (by simp)
        · split at h
          · exact absurd h (by simp)
          · injection h with h2
            have hnb : nb = (l.dropWhile pySpace).takeWhile digitC ++
                (spanDotDigits ((l.dropWhile pySpace).dropWhile digitC)).1 :=
              (congrArg (fun q => q.1.1) h2).symm
            rw [hnb]
            intro hne
            exact hds (List.append_eq_nil.1 hne).1

theorem tryLabeled_fst_ne_nil (l nb traw rest : List Char)
    (h : tryLabeled l = some ((nb, traw), rest)) : nb ≠ [] := by
  simp only [tryLabeled] at h
  split at h
  · exact absurd h (by simp)
  · rename_i kw hfind
    have hkw : kw ∈ sectionKeywords := List.mem_of_find?_eq_some hfind
    have hne : kw ≠ [] := by
      simp only [sectionKeywords, List.mem_cons, List.not_mem_nil, or_false] at hkw
      rcases hkw with h | h | h <;> (subst h; decide)
    split at h
    · exact absurd h (by simp)
    · split at h
      · exact absurd h (by simp)
      · split at h
        · injection h with h2
          have hnb : nb = kw := (congrArg (fun q => q.1.1) h2).symm
          rw [hnb]
          exact hne
        · exact absurd h (by simp)

theorem finditerF_from_try
    (tryAt : List Char → Option ((List Char × List Char) × List Char)) (fuel : Nat) :
    ∀ l m, m ∈ finditerF tryAt fuel l →
    ∃ l2 rest, tryAt l2 = some (m, rest) := by
  induction fuel with
  | zero => intro l m hm; simp [finditerF] at hm
  | succ fuel ih =>
    intro l m hm
    simp only [finditerF] at hm
    split at hm
    · rename_i mm rr htry
      split at hm
      · rcases List.mem_cons.1 hm with he | ht
        · subst he
          exact ⟨l, _, htry⟩
        · exact ih _ m ht
      · have he := List.mem_singleton.1 hm
        subst he
        exact ⟨l, _, htry⟩
    · split at hm
      · exact ih _ m hm
      · simp at hm

theorem candidateOfMatch_spec (pg : Nat) (m : List Char × List Char)
    (c : Nat × List Char × Nat) (h : candidateOfMatch pg m = some c) :
    hasAffiliationKeyword (pyStrip m.2) = false ∧
    c = (if m.1 = [] then 1 else m.1.countP (· = '.') + 1, pyStrip m.2, pg) := by
  simp only [candidateOfMatch] at h
  split at h
  · exact absurd h (by simp)
  · rename_i haff
    constructor
    · simpa using haff
    · injection h with h2
      exact h2.symm

theorem pageCandidates_mem (p : List Char) (pg : Nat) (c : Nat × List Char × Nat)
    (h : c ∈ pageCandidates p pg) :
    ∃ l2 nb traw rest,
      (tryNumbered l2 = some ((nb, traw), rest) ∨ tryLabeled l2 = some ((nb, traw), rest)) ∧
      candidateOfMatch pg (nb, traw) = some c := by
  simp only [pageCandidates, finditerPage, List.mem_append, List.mem_filterMap] at h
  rcases h with ⟨m, hm, hcand⟩ | ⟨m, hm, hcand⟩
  · rcases finditerF_from_try tryNumbered _ _ m hm with ⟨l2, rest, htry⟩
    exact ⟨l2, m.1, m.2, rest, Or.inl (by rwa [← Prod.mk.eta (p := m)] at htry),
      by rwa [← Prod.mk.eta (p := m)] at hcand⟩
  · rcases finditerF_from_try tryLabeled _ _ m hm with ⟨l2, rest, htry⟩
    exact ⟨l2, m.1, m.2, rest, Or.inr (by rwa [← Prod.mk.eta (p := m)] at htry),
      by rwa [← Prod.mk.eta (p := m)] at hcand⟩

theorem extractLoop_true_spec (ps : List (List Char)) :
    ∀ pg c, c ∈ extractLoop ps pg true →
    ∃ pg2 l2 nb traw rest,
      (tryNumbered l2 = some ((nb, traw), rest) ∨ tryLabeled l2 = some ((nb, traw), rest)) ∧
      hasAffiliationKeyword (pyStrip traw) = false ∧
      c = (nb.countP (· = '.') + 1, pyStrip traw, pg2) := by
  induction ps with
  | nil => intro pg c hc; simp [extractLoop] at hc
  | cons p ps ih =>
    intro pg c hc
    simp only [extractLoop, if_true, List.mem_append] at hc
    rcases hc with hpage | hrec
    · rcases pageCandidates_mem p (pg + 1) c hpage with ⟨l2, nb, traw, rest, hmatch, hcand⟩
      have hspec := candidateOfMatch_spec (pg + 1) (nb, traw) c hcand
      have hnb : nb ≠ [] := by
        rcases hmatch with hn | hl
        · exact tryNumbered_fst_ne_nil l2 nb traw rest hn
        · exact tryLabeled_fst_ne_nil l2 nb traw rest hl
      refine ⟨pg + 1, l2, nb, traw, rest, hmatch, hspec.1, ?_⟩
      rw [hspec.2]
      simp [hnb]
    · exact ih (pg + 1) c hrec

theorem extractLoop_false_spec (ps : List (List Char)) :
    ∀ pg, extractLoop ps pg false = [] ∨
    ∃ g pg2 rest0, extractLoop ps pg false = (1, "Introduction".toList ++ g, pg2) :: rest0 ∧
      ∀ c ∈ rest0,
        ∃ pg3 l2 nb traw rest,
          (tryNumbered l2 = some ((nb, traw), rest) ∨ tryLabeled l2 = some ((nb, traw), rest)) ∧
          hasAffiliationKeyword (pyStrip traw) = false ∧
          c = (nb.countP (· = '.') + 1, pyStrip traw, pg3) := by
  induction ps with
  | nil => intro pg; left; rfl
  | cons p ps ih =>
    intro pg
    simp only [extractLoop, if_false]
    cases hintro : findIntro p with
    | some g =>
      right
      exact ⟨g, pg + 1, extractLoop ps (pg + 1) true, rfl,
        fun c hc => extractLoop_true_spec ps (pg + 1) c hc⟩
    | none => exact ih (pg + 1)

/-! ### Claim C1 — the label of the conclusion heading -/

/-- Claim C1, counterexample: on the spec's own scenario input the
conclusion line is NOT `# 6 Conclusion`; there is no fixed
`lastConclusionNumber` constant in `add_numbering_to_outline`. -/
theorem conclusion_label_not_six :
    add_numbering_to_outline
        "# Introduction\n## Background\n# Methods\n# Conclusion\n# Acknowledgments\n## Funding" ≠
      "# 1 Introduction\n## 1.1 Background\n# 2 Methods\n# 6 Conclusion\n# A Acknowledgments\n## A.1 Funding" := by
  decide

/-- Claim C1 (amended): a depth-1 heading containing a conclusion keyword is
labeled like every other main-body depth-1 heading, with the incremented
numeric counter; on the scenario input the conclusion (the third depth-1
heading) is therefore labeled `3`, and the full output is as below. -/
theorem conclusion_label_is_incremented_counter :
    add_numbering_to_outline
        "# Introduction\n## Background\n# Methods\n# Conclusion\n# Acknowledgments\n## Funding" =
      "# 1 Introduction\n## 1.1 Background\n# 2 Methods\n# 3 Conclusion\n# A Acknowledgments\n## A.1 Funding" := by
  decide

/-! ### Claim C2 — consecutive numeric labels in the main body -/

/-- Claim C2, counterexample: the heading `# 5 Foo` starts with an integer,
which the code adopts and writes into the counter, so the two depth-1
headings (no conclusion keyword anywhere) are labeled `5` and `6` — not the
`1` and `2` the claim requires "regardless of the headings' text". -/
theorem mainBody_labels_counterexample :
    add_numbering_to_outline "# 5 Foo\n# Bar" = "# 5 Foo\n# 6 Bar" ∧
    add_numbering_to_outline "# 5 Foo\n# Bar" ≠ "# 1 Foo\n# 2 Bar" := by
  constructor
  · decide
  · decide

/-- Claim C2 (amended): provided no heading's text begins with an integer
followed by whitespace (and no conclusion keyword occurs), the `j`-th line,
when it is a depth-1 heading, is emitted with label equal to the number of
depth-1 headings among the first `j+1` lines — i.e. the depth-1 labels are
the consecutive integers 1, 2, 3, … in order. -/
theorem mainBody_labels_consecutive (ls : List (List Char))
    (hyp : ∀ l ∈ ls, countHash l = 1 →
      matchIntSpace (pyStrip (lstripHash l)) = none ∧
      hasConclusionKeyword (pyStrip (lstripHash l)) = false)
    (j : Nat) (l : List Char) (hj : ls[j]? = some l) (hl : countHash l = 1) :
    ((runLines initState ls).1)[j]? =
      some ('#' :: ' ' :: (natToDigits ((ls.take (j + 1)).countP isHeading1) ++
        ' ' :: pyStrip (lstripHash l))) := by
  have h := mainBody_labels_aux ls initState rfl hyp j l hj hl
  simpa [initState] using h

/-- Concrete instance of `mainBody_labels_consecutive`: in a three-line
outline whose depth-1 headings are unnumbered, the second depth-1 heading
(line index 2) is labeled `2`. -/
theorem mainBody_labels_consecutive_witness :
    ((runLines initState ["# Alpha".toList, "## Sub".toList, "# Beta".toList]).1)[2]? =
      some ("# 2 Beta".toList) := by
  have h := mainBody_labels_consecutive
    ["# Alpha".toList, "## Sub".toList, "# Beta".toList]
    (by decide) 2 ("# Beta".toList) (by decide) (by decide)
  revert h
  decide

/-! ### Claim C3 — shape of every rewritten heading line -/

/-- Claim C3, counterexample: after a conclusion heading, the appendix
branch does not strip the leading numeral from the heading text: `# 2 Data`
becomes `# A 2 Data`, not the `# A Data` the claim requires. -/
theorem appendix_not_stripped_counterexample :
    add_numbering_to_outline "# Summary\n# 2 Data" = "# 1 Summary\n# A 2 Data" ∧
    add_numbering_to_outline "# Summary\n# 2 Data" ≠ "# 1 Summary\n# A Data" := by
  constructor
  · decide
  · decide

/-- Claim C3 (amended): every rewritten heading line has the shape
`'#' * depth ++ " " ++ label ++ " " ++ suffix`, where the suffix is the
heading text with its leading numeral stripped only in main-body mode
(a plain integer prefix at depth 1, a dotted numeral sequence at deeper
depths); in appendix mode (depth 1 after the conclusion, or deeper while
the current mode is appendix) the original text is kept verbatim. -/
theorem rewritten_line_shape (st : RState) (line : List Char)
    (h : 1 ≤ countHash line) :
    ∃ label : List Char,
      (processLine st line).1 =
        List.replicate (countHash line) '#' ++ ' ' ::
          (label ++ ' ' ::
            (if countHash line = 1 then
              (if st.mainBodyComplete then pyStrip (lstripHash line)
               else
                 match matchIntSpace (pyStrip (lstripHash line)) with
                 | some p => p.2
                 | none => pyStrip (lstripHash line))
             else
               match st.currentMainMode with
               | .numeric => stripLeadingNumerals (pyStrip (lstripHash line))
               | .appendix => pyStrip (lstripHash line))) := by
  by_cases h1 : countHash line = 1
  · cases hm : st.mainBodyComplete with
    | true =>
      refine ⟨[chrPy st.appendixLetterCounter], ?_⟩
      rw [(processLine_appendix1 st line h1 hm).1]
      simp [h1]
    | false =>
      cases hmi : matchIntSpace (pyStrip (lstripHash line)) with
      | some p =>
        refine ⟨natToDigits p.1, ?_⟩
        rw [(processLine_main_numbered st line p.1 p.2 h1 hm hmi).1]
        simp [h1]
      | none =>
        refine ⟨natToDigits (st.numericCounters 1 + 1), ?_⟩
        rw [(processLine_main_unnumbered st line h1 hm hmi).1]
        simp [h1]
  · have h0 : countHash line ≠ 0 := by omega
    cases hmode : st.currentMainMode with
    | numeric =>
      refine ⟨pyJoin ['.'] ((List.range' 1 (countHash line)).map (fun lv =>
        natToDigits (resetDeeper
          (setCounter st.numericCounters (countHash line) (st.numericCounters (countHash line) + 1))
          (countHash line) lv))), ?_⟩
      rw [processLine_sub_numeric_out st line h0 h1 hmode]
      simp [h1, hmode]
    | appendix =>
      refine ⟨pyJoin ['.'] ((match st.currentAppendixLetter with
          | some n => [chrPy n]
          | none => []) ::
        (List.range' 2 (countHash line - 1)).map (fun lv =>
          natToDigits (resetDeeper
            (setCounter st.appendixCounters (countHash line) (st.appendixCounters (countHash line) + 1))
            (countHash line) lv))), ?_⟩
      rw [processLine_sub_appendix_out st line h0 h1 hmode]
      simp [h1, hmode]

/-- Concrete instance of `rewritten_line_shape` at a depth-2 heading with a
dotted numeral, processed from the initial state. -/
theorem rewritten_line_shape_witness :
    ∃ label : List Char,
      (processLine initState ("## 2.1 Foo".toList)).1 =
        List.replicate (countHash ("## 2.1 Foo".toList)) '#' ++ ' ' ::
          (label ++ ' ' ::
            (if countHash ("## 2.1 Foo".toList) = 1 then
              (if initState.mainBodyComplete then pyStrip (lstripHash ("## 2.1 Foo".toList))
               else
                 match matchIntSpace (pyStrip (lstripHash ("## 2.1 Foo".toList))) with
                 | some p => p.2
                 | none => pyStrip (lstripHash ("## 2.1 Foo".toList)))
             else
               match initState.currentMainMode with
               | .numeric => stripLeadingNumerals (pyStrip (lstripHash ("## 2.1 Foo".toList)))
               | .appendix => pyStrip (lstripHash ("## 2.1 Foo".toList)))) :=
  rewritten_line_shape initState ("## 2.1 Foo".toList) (by decide)

/-! ### Claim C4 — the appendix regime is permanent and letters sequential -/

/-- Claim C4: once `main_body_complete` is set (which happens exactly when a
depth-1 heading with a conclusion keyword is processed), it stays set for
the whole rest of the run, and every subsequent depth-1 heading — whatever
its text — is emitted with the letter of code point
`ord('A') + (number of depth-1 headings already seen since the switch)`:
the sequence A, B, C, …, each letter consumed exactly once per depth-1
heading and never repeated (the code point is strictly increasing). -/
theorem appendix_mode_permanent_letters_sequential (ls : List (List Char)) (st : RState)
    (hm : st.mainBodyComplete = true) :
    (runLines st ls).2.mainBodyComplete = true ∧
    ∀ (j : Nat) (l : List Char), ls[j]? = some l → countHash l = 1 →
      ((runLines st ls).1)[j]? =
        some ('#' :: ' ' ::
          chrPy (st.appendixLetterCounter + (ls.take j).countP isHeading1) ::
            ' ' :: pyStrip (lstripHash l)) :=
  appendix_letters_aux ls st hm

/-- Concrete instance of `appendix_mode_permanent_letters_sequential`: after
the mode switch, the third depth-1 heading gets the letter `C`, and the
final state still has the main body marked complete. -/
theorem appendix_letters_witness :
    (runLines { initState with mainBodyComplete := true }
        ["# P".toList, "# Q".toList, "# Conclusion".toList]).2.mainBodyComplete = true ∧
    ((runLines { initState with mainBodyComplete := true }
        ["# P".toList, "# Q".toList, "# Conclusion".toList]).1)[2]? =
      some ("# C Conclusion".toList) := by
  have h := appendix_mode_permanent_letters_sequential
    ["# P".toList, "# Q".toList, "# Conclusion".toList]
    { initState with mainBodyComplete := true } rfl
  have h2 := h.2 2 ("# Conclusion".toList) (by decide) (by decide)
  refine ⟨h.1, ?_⟩
  revert h2
  decide

/-! ### Claim C5 — one output line per input line, passthrough preserved -/

/-- Claim C5: `add_numbering_to_outline` emits exactly one output line per
input line (the split of the output has the same length as the split of the
input), in order, and every input line with no `'#'` occurs unmodified at
the same position of the output. -/
theorem renumber_line_counts (s : String) :
    (splitNl ((add_numbering_to_outline s).toList)).length = (splitNl s.toList).length ∧
    ∀ (j : Nat) (l : List Char), (splitNl s.toList)[j]? = some l → countHash l = 0 →
      (splitNl ((add_numbering_to_outline s).toList))[j]? = some l := by
  constructor
  · rw [add_numbering_split]
    exact runLines_length _ _
  · intro j l hj hc
    rw [add_numbering_split]
    exact runLines_passthrough _ initState j l hj hc

/-- Concrete instance of `renumber_line_counts`: a three-line document keeps
three lines, and the non-heading first line passes through unmodified. -/
theorem renumber_line_counts_witness :
    (splitNl ((add_numbering_to_outline "plain\n# Head\nrest").toList)).length =
      (splitNl ("plain\n# Head\nrest" : String).toList).length ∧
    (splitNl ((add_numbering_to_outline "plain\n# Head\nrest").toList))[0]? =
      some ("plain".toList) := by
  refine ⟨(renumber_line_counts "plain\n# Head\nrest").1, ?_⟩
  exact (renumber_line_counts "plain\n# Head\nrest").2 0 ("plain".toList) (by decide) (by decide)

/-! ### Claim C6 — style classes of the render adapter -/

/-- Claim C6, counterexample: a depth-7 heading is rendered with style class
`h7`, not clamped to `h6` as the claim states. -/
theorem style_class_not_clamped_counterexample :
    convert_markdown_to_html "####### Deep" = "<p class=\"h7\">Deep</p>" ∧
    convert_markdown_to_html "####### Deep" ≠ "<p class=\"h6\">Deep</p>" := by
  constructor
  · decide
  · decide

/-- Claim C6 (amended): `convert_markdown_to_html` maps a heading line whose
leading `'#'` run has length `d ≥ 1` to a paragraph with style class
`"h" ++ d` for every `d`, with no clamping — depths beyond 6 produce
classes `h7`, `h8`, … for which the page defines no style. -/
theorem style_class_is_depth (d : Nat) (rest : List Char)
    (hd : 1 ≤ d) (hr : rest.head? ≠ some '#') :
    convLine (List.replicate d '#' ++ rest) =
      "<p class=\"h".toList ++ natToDigits d ++ "\">".toList ++
        rest.dropWhile pySpace ++ "</p>".toList := by
  have htw : (List.replicate d '#' ++ rest).takeWhile (· = '#') = List.replicate d '#' ∧
      (List.replicate d '#' ++ rest).dropWhile (· = '#') = rest := by
    induction d with
    | zero =>
      simp only [List.replicate, List.nil_append]
      cases rest with
      | nil => simp
      | cons c t =>
        have hc : ¬(c = '#') := by
          intro hce
          exact hr (by rw [hce]; rfl)
        simp [List.takeWhile_cons, List.dropWhile_cons, hc]
    | succ d ih =>
      rcases Nat.eq_zero_or_pos d with hd0 | hdpos
      · subst hd0
        simp only [List.replicate_succ, List.replicate_zero, List.nil_append, List.cons_append]
        cases rest with
        | nil => simp [List.takeWhile_cons, List.dropWhile_cons]
        | cons c t =>
          have hc : ¬(c = '#') := by
            intro hce
            exact hr (by rw [hce]; rfl)
          simp [List.takeWhile_cons, List.dropWhile_cons, hc]
      · have := ih hdpos
        simp [List.replicate_succ, List.takeWhile_cons, List.dropWhile_cons, this.1, this.2]
  have hne : List.replicate d '#' ≠ [] := by
    simp [List.replicate_eq_nil_iff]
    omega
  simp only [convLine, htw.1, htw.2, if_neg hne, List.length_replicate]

/-- Concrete instance of `style_class_is_depth` at depth 7. -/
theorem style_class_is_depth_witness :
    convLine (List.replicate 7 '#' ++ " Deep".toList) =
      "<p class=\"h".toList ++ natToDigits 7 ++ "\">".toList ++
        (" Deep".toList).dropWhile pySpace ++ "</p>".toList :=
  style_class_is_depth 7 (" Deep".toList) (by decide) (by decide)

/-! ### Claim C7 — the affiliation filter -/

/-- Claim C7: every candidate the extractor emits through the
numbered-heading or labeled-section rules — i.e. every candidate after the
(always first) Introduction candidate — has a title free of the affiliation
keywords; in particular a page line `1 Department of Computer Science`
yields no candidate at all. -/
theorem extractor_affiliation_filter :
    (∀ (pages : List String) (k : Nat) (c : Nat × List Char × Nat),
        c ∈ (extract_headings_regex pages k).drop 1 →
        hasAffiliationKeyword c.2.1 = false) ∧
    extract_headings_regex ["Introduction", "1 Department of Computer Science"] 5 =
      [(1, "Introduction".toList, 1)] := by
  refine ⟨?_, by decide⟩
  intro pages k c hc
  rcases extractLoop_false_spec ((pages.take k).map String.toList) 0 with hnil |
    ⟨g, pg2, rest0, heq, hrest⟩
  · rw [extract_headings_regex, hnil] at hc
    simp at hc
  · rw [extract_headings_regex, heq] at hc
    simp only [List.drop_succ_cons, List.drop_zero] at hc
    rcases hrest c hc with ⟨pg3, l2, nb, traw, rest, _, haff, hceq⟩
    rw [hceq]
    exact haff

/-- Concrete instance of `extractor_affiliation_filter`: a candidate that
did get through the filter has no affiliation keyword in its title. -/
theorem extractor_affiliation_filter_witness :
    hasAffiliationKeyword (((1 : Nat), "Results".toList, (2 : Nat)) : Nat × List Char × Nat).2.1 = false :=
  extractor_affiliation_filter.1 ["Introduction", "3 Results"] 2
    ((1 : Nat), "Results".toList, (2 : Nat)) (by decide)

/-! ### Claim C8 — gating on the Introduction rule -/

/-- Claim C8, counterexample: the Introduction pattern of
`extract_headings_regex` is not case-insensitive — it accepts only the
spellings `Introduction` and `INTRODUCTION` — so a page reading
`introduction` (which the spec's case-insensitive description matches)
produces no candidate at all. -/
theorem intro_rule_not_case_insensitive :
    introMatchesCI ("introduction".toList) = true ∧
    extract_headings_regex ["introduction"] 5 = [] := by
  constructor
  · decide
  · decide

/-- Claim C8 (amended): the Introduction rule (which matches only the exact
spellings `Introduction` and `INTRODUCTION`, optionally preceded by a
numeral) fires at most once: either the result is empty (the rule never
fired, and rules 2–3 contributed nothing), or the first candidate is the
Introduction candidate with depth 1, and every following candidate comes
from the numbered-heading or labeled-section rule, passed the affiliation
filter, and has depth equal to the dot count of its captured numbering plus
one. -/
theorem extractor_gating (pages : List String) (k : Nat) :
    extract_headings_regex pages k = [] ∨
    ∃ g pg rest0,
      extract_headings_regex pages k = (1, "Introduction".toList ++ g, pg) :: rest0 ∧
      ∀ c ∈ rest0,
        ∃ pg3 l2 nb traw rest,
          (tryNumbered l2 = some ((nb, traw), rest) ∨
            tryLabeled l2 = some ((nb, traw), rest)) ∧
          hasAffiliationKeyword (pyStrip traw) = false ∧
          c = (nb.countP (· = '.') + 1, pyStrip traw, pg3) :=
  extractLoop_false_spec _ 0

/-- Concrete instance of `extractor_gating`. -/
theorem extractor_gating_witness :
    extract_headings_regex ["Introduction\n2.1 Methods"] 1 = [] ∨
    ∃ g pg rest0,
      extract_headings_regex ["Introduction\n2.1 Methods"] 1 =
        (1, "Introduction".toList ++ g, pg) :: rest0 ∧
      ∀ c ∈ rest0,
        ∃ pg3 l2 nb traw rest,
          (tryNumbered l2 = some ((nb, traw), rest) ∨
            tryLabeled l2 = some ((nb, traw), rest)) ∧
          hasAffiliationKeyword (pyStrip traw) = false ∧
          c = (nb.countP (· = '.') + 1, pyStrip traw, pg3) :=
  extractor_gating ["Introduction\n2.1 Methods"] 1

/-! ### Claim C9 — exception freedom of the renumberer -/

/-- Claim C9 (amended): the renumbering loop raises no exception on any
input with at most 1114047 lines — in particular on empty strings, lines
with no `'#'`, and depth jumps.  (The bound is where Python's `chr`
overflows; see the counterexample.) -/
theorem renumber_exception_free (s : String)
    (h : (splitNl s.toList).length ≤ 1114047) :
    exceptionFree s = true := by
  unfold exceptionFree
  apply linesSafe_bound _ initState safeInv_init
  have : initState.appendixLetterCounter = 65 := rfl
  omega

/-- Concrete instance of `renumber_exception_free` covering the degraded
inputs the claim enumerates: a depth jump (a `##` heading with no preceding
`#` one), a blank line, a plain line and an appendix section. -/
theorem renumber_exception_free_witness :
    exceptionFree "## Deep\n\nplain\n# One\n# Summary\n# App" = true :=
  renumber_exception_free "## Deep\n\nplain\n# One\n# Summary\n# App" (by decide)

/-- Claim C9, counterexample: on an input with one conclusion heading
followed by 1114048 appendix headings, the 1114048-th appendix heading
calls Python's `chr` on `65 + 1114047 = 0x110000`, which raises
`ValueError` — the renumberer is not exception-free for every input
string. -/
theorem renumber_chr_overflow :
    exceptionFree
      ((pyJoin ['\n'] ("# Summary".toList :: List.replicate 1114048 ("# x".toList))).asString) =
      false := by
  have hcons : ∀ (st : RState) (a : List Char) (ls : List (List Char)),
      linesSafe st (a :: ls) = (stepSafe st a && linesSafe (processLine st a).2 ls) :=
    fun _ _ _ => rfl
  unfold exceptionFree
  rw [toList_asString]
  rw [splitNl_pyJoin _ (List.cons_ne_nil _ _) ?pieces]
  case pieces =>
    intro p hp
    rcases List.mem_cons.1 hp with h | h
    · subst h; decide
    · rw [List.eq_of_mem_replicate h]; decide
  rw [show (1114048 : Nat) = 1114047 + 1 from rfl, List.replicate_add]
  rw [hcons]
  rw [linesSafe_append]
  have hmb : (processLine initState ("# Summary".toList)).2.mainBodyComplete = true := by decide
  have hctr : (processLine initState ("# Summary".toList)).2.appendixLetterCounter = 65 := by
    decide
  have hrep := runLines_replicate_letter 1114047
    (processLine initState ("# Summary".toList)).2 ("# x".toList) (by decide) hmb
  have hstep : stepSafe
      (runLines (processLine initState ("# Summary".toList)).2
        (List.replicate 1114047 ("# x".toList))).2 ("# x".toList) = false := by
    have h1 : countHash ("# x".toList) = 1 := by decide
    simp only [stepSafe, h1, hrep.2, hrep.1, hctr]
    decide
  rw [show List.replicate 1 ("# x".toList) = ["# x".toList] from rfl]
  rw [hcons, hstep]
  simp only [Bool.false_and, Bool.and_false]

/-! ### Claim C10 — adopting a pre-existing number -/

/-- Claim C10: a depth-1 heading processed in main-body mode whose text
begins with an integer followed by whitespace is emitted with exactly that
integer as its label, the depth-1 counter is overwritten with it, and a
following unnumbered depth-1 heading (no conclusion keyword in between)
continues from the adopted value with label `num + 1`. -/
theorem adopt_existing_number (st : RState) (line l2 : List Char)
    (num : Nat) (clean : List Char)
    (h1 : countHash line = 1) (hm : st.mainBodyComplete = false)
    (hmi : matchIntSpace (pyStrip (lstripHash line)) = some (num, clean))
    (hk : hasConclusionKeyword clean = false)
    (h2 : countHash l2 = 1)
    (hmi2 : matchIntSpace (pyStrip (lstripHash l2)) = none) :
    (processLine st line).1 = '#' :: ' ' :: (natToDigits num ++ ' ' :: clean) ∧
    (processLine st line).2.numericCounters 1 = num ∧
    (processLine (processLine st line).2 l2).1 =
      '#' :: ' ' :: (natToDigits (num + 1) ++ ' ' :: pyStrip (lstripHash l2)) := by
  have hfirst := processLine_main_numbered st line num clean h1 hm hmi
  have hm1 : (processLine st line).2.mainBodyComplete = false := by
    rw [hfirst.2.2.1, hk]
  have hsecond := processLine_main_unnumbered (processLine st line).2 l2 h2 hm1 hmi2
  refine ⟨hfirst.1, hfirst.2.1, ?_⟩
  rw [hsecond.1, hfirst.2.1]

/-- Concrete instance of `adopt_existing_number`: `# 5 Foo` keeps the label
`5`, sets the counter to 5, and the following `# Bar` is labeled `6`. -/
theorem adopt_existing_number_witness :
    (processLine initState ("# 5 Foo".toList)).1 = "# 5 Foo".toList ∧
    (processLine initState ("# 5 Foo".toList)).2.numericCounters 1 = 5 ∧
    (processLine (processLine initState ("# 5 Foo".toList)).2 ("# Bar".toList)).1 =
      "# 6 Bar".toList := by
  have h := adopt_existing_number initState ("# 5 Foo".toList) ("# Bar".toList) 5
    ("Foo".toList) (by decide) rfl (by decide) (by decide) (by decide) (by decide)
  revert h
  decide
